import Mathlib

set_option maxRecDepth 8192

/-!
Verification of `pickem_alerts` (src/main.py): a daily MLB odds poller that
selects the minimum-price (most favored) outcome for the day and emails it.

The Python source is shallowly embedded below:
* outcome records and the pandas `idxmin`-based best-bet selection
  (`main`, lines 176-190);
* the day-boundary polling loop with its blanket `except` (lines 166-197),
  modelled as a step function over an explicit state, reading the
  US/Eastern calendar date from a stream `now : Nat → Nat`;
* the day-window computation of `get_spreads` (lines 134-136), where
  `datetime.combine` builds a naive datetime which `.astimezone` interprets
  in the *system local* time zone;
* the unguarded flattening of the provider JSON (lines 153-155);
* `authenticate_with_google` (lines 32-65), `create_email_message`
  (lines 68-92) and `send_email` (lines 95-114).

Text is modelled as `List Char`, dates as day numbers (`Nat`), instants as
seconds (`Int`), bytes as `Nat` below 256.
-/

/-- One outcome record parsed from the provider response: a team name and its
American-odds moneyline price (signed integer).  Mirrors the rows of the
DataFrame built in `get_spreads` (src/main.py line 153). -/
structure Outcome where
  name : List Char
  price : Int
deriving Repr, DecidableEq

/-- Minimum price occurring in a list of outcome records (`spreads.price` min). -/
def minPrice? (l : List Outcome) : Option Int :=
  (l.map Outcome.price).min?

/-- Model of pandas `Series.idxmin` (src/main.py line 180): the positional
index of the first occurrence of the minimum value; pandas raises on an
empty series, modelled as `none`. -/
def idxmin (l : List Int) : Option Nat :=
  match l.min? with
  | none => none
  | some m => some (l.findIdx (fun x => x = m))

/-- Model of `spreads.loc[spreads.price.idxmin()]` (src/main.py line 180):
the row whose positional label `idxmin` returns (the DataFrame carries the
default range index, so labels are positions). -/
def bestBet (l : List Outcome) : Option Outcome :=
  match idxmin (l.map Outcome.price) with
  | none => none
  | some i => l[i]?

instance : Std.Antisymm (fun (a b : Int) => a ≤ b) :=
  ⟨fun h h2 => le_antisymm h h2⟩

lemma int_min_eq_or (a b : Int) : min a b = a ∨ min a b = b := min_choice a b

lemma int_le_min_iff (a b c : Int) : a ≤ min b c ↔ a ≤ b ∧ a ≤ c := le_min_iff

lemma min?_spec {l : List Int} {m : Int} (h : l.min? = some m) :
    m ∈ l ∧ ∀ b ∈ l, m ≤ b :=
  (List.min?_eq_some_iff (fun a => le_refl a) int_min_eq_or int_le_min_iff).1 h

lemma min?_isSome_of_ne_nil {l : List Int} (h : l ≠ []) : ∃ m, l.min? = some m := by
  cases l with
  | nil => exact absurd rfl h
  | cons x xs => exact ⟨_, List.min?_cons⟩

/-- Core description of `bestBet` on a list whose minimum price is `m`: it
returns the record at the first position whose price is `m`. -/
lemma bestBet_eq_first_min {l : List Outcome} {m : Int} (hm : minPrice? l = some m) :
    ∃ i, ∃ hi : i < l.length,
      bestBet l = some (l.get ⟨i, hi⟩) ∧ (l.get ⟨i, hi⟩).price = m ∧
      ∀ j, ∀ hj : j < l.length, (l.get ⟨j, hj⟩).price = m → i ≤ j := by
  have hspec : m ∈ l.map Outcome.price ∧ ∀ b ∈ l.map Outcome.price, m ≤ b :=
    min?_spec hm
  obtain ⟨hmem, hle⟩ := hspec
  set p : Int → Bool := fun x => x = m with hp
  have hex : ∃ x ∈ l.map Outcome.price, p x = true := ⟨m, hmem, by simp [hp]⟩
  have hilt : (l.map Outcome.price).findIdx p < (l.map Outcome.price).length :=
    List.findIdx_lt_length_of_exists hex
  set i := (l.map Outcome.price).findIdx p with hidef
  have hil : i < l.length := by simpa using hilt
  refine ⟨i, hil, ?_, ?_, ?_⟩
  · simp only [bestBet, idxmin, minPrice?] at *
    rw [hm]
    simp [hidef, hp, List.getElem?_eq_getElem hil, List.get_eq_getElem]
  · have := @List.findIdx_getElem _ p (l.map Outcome.price) hilt
    simp only [hp, List.getElem_map, decide_eq_true_eq] at this
    simpa [List.get_eq_getElem] using this
  · intro j hj hjm
    by_contra hlt
    push_neg at hlt
    have hjlt : j < (l.map Outcome.price).findIdx p := hlt
    have := List.not_of_lt_findIdx hjlt
    have hjl : j < (l.map Outcome.price).length := by simpa using hj
    simp only [hp, List.getElem_map, decide_eq_false_iff_not] at this
    exact this (by simpa [List.get_eq_getElem] using hjm)

/-- C1: for every non-empty outcome sequence, the selected best bet exists and
its price is less than or equal to the price of every record in the sequence
(minimum-price selection); on the scenario input
`[{A, -150}, {B, +130}, {C, -200}]` the selected record is `{C, -200}`. -/
theorem best_bet_minimum_price :
    (∀ l : List Outcome, l ≠ [] →
      ∃ b, bestBet l = some b ∧ ∀ r ∈ l, b.price ≤ r.price) ∧
    bestBet [⟨"A".data, -150⟩, ⟨"B".data, 130⟩, ⟨"C".data, -200⟩] =
      some ⟨"C".data, -200⟩ := by
  constructor
  · intro l hl
    have hmap : l.map Outcome.price ≠ [] :=
      fun h => hl (List.map_eq_nil_iff.mp h)
    obtain ⟨m, hm⟩ := min?_isSome_of_ne_nil hmap
    obtain ⟨i, hi, hbb, hpm, _⟩ := bestBet_eq_first_min hm
    refine ⟨l.get ⟨i, hi⟩, hbb, ?_⟩
    intro r hr
    have hmr := (min?_spec hm).2 r.price (List.mem_map_of_mem Outcome.price hr)
    rw [hpm]
    exact hmr
  · decide

/-- Witness for C1: the theorem applied to the scenario input from the claim. -/
theorem best_bet_minimum_price_witness :
    ∃ b, bestBet [⟨"A".data, -150⟩, ⟨"B".data, 130⟩, ⟨"C".data, -200⟩] = some b ∧
      ∀ r ∈ [(⟨"A".data, -150⟩ : Outcome), ⟨"B".data, 130⟩, ⟨"C".data, -200⟩],
        b.price ≤ r.price :=
  best_bet_minimum_price.1 _ (by decide)

/-- C3: whenever two or more records attain the minimum price, the selection
returns the record at the first such position in the input sequence (stable
tie-break on provider response order). -/
theorem best_bet_stable_tie_break (l : List Outcome) (m : Int)
    (hm : minPrice? l = some m)
    (htwo : 2 ≤ (l.filter (fun r => r.price = m)).length) :
    ∃ i, ∃ hi : i < l.length,
      bestBet l = some (l.get ⟨i, hi⟩) ∧ (l.get ⟨i, hi⟩).price = m ∧
      ∀ j, ∀ hj : j < l.length, (l.get ⟨j, hj⟩).price = m → i ≤ j :=
  bestBet_eq_first_min hm

/-- Witness for C3: two records tie at the minimum price `-5`; the first one
is selected. -/
theorem best_bet_stable_tie_break_witness :
    ∃ i, ∃ hi : i < ([⟨"A".data, -5⟩, ⟨"B".data, -5⟩, ⟨"C".data, 3⟩] :
        List Outcome).length,
      bestBet [⟨"A".data, -5⟩, ⟨"B".data, -5⟩, ⟨"C".data, 3⟩] =
        some (([⟨"A".data, -5⟩, ⟨"B".data, -5⟩, ⟨"C".data, 3⟩] :
          List Outcome).get ⟨i, hi⟩) ∧
      (([⟨"A".data, -5⟩, ⟨"B".data, -5⟩, ⟨"C".data, 3⟩] :
          List Outcome).get ⟨i, hi⟩).price = -5 ∧
      ∀ j, ∀ hj : j < ([⟨"A".data, -5⟩, ⟨"B".data, -5⟩, ⟨"C".data, 3⟩] :
          List Outcome).length,
        (([⟨"A".data, -5⟩, ⟨"B".data, -5⟩, ⟨"C".data, 3⟩] :
            List Outcome).get ⟨j, hj⟩).price = -5 → i ≤ j :=
  best_bet_stable_tie_break _ (-5) (by decide) (by decide)

/-! ## Provider JSON flattening (src/main.py lines 153-155) -/

/-- One market object of the provider JSON; `outcomes` is `none` when the
"outcomes" key is missing from the object. -/
structure Market where
  outcomes : Option (List Outcome)
deriving Repr, DecidableEq

/-- One bookmaker object of the provider JSON; `markets` is `none` when the
"markets" key is missing. -/
structure Bookmaker where
  markets : Option (List Market)
deriving Repr, DecidableEq

/-- One game object of the provider JSON; `bookmakers` is `none` when the
"bookmakers" key is missing. -/
structure Game where
  bookmakers : Option (List Bookmaker)
deriving Repr, DecidableEq

/-- Python exceptions raised by the flattening comprehension: `KeyError` for a
missing key and `IndexError` for subscript `[0]` on an empty list. -/
inductive PyError
  | keyError
  | indexError
deriving Repr, DecidableEq

/-- Model of the list comprehension
`[team for game in odds for team in game["bookmakers"][0]["markets"][0]["outcomes"]]`
(src/main.py lines 153-155).  Games are traversed left to right; the
subscripts are unguarded, so the first game with a missing key or an empty
list aborts the whole comprehension with an exception and no records are
produced. -/
def flattenOdds : List Game → Except PyError (List Outcome)
  | [] => .ok []
  | g :: rest =>
    match g.bookmakers with
    | none => .error .keyError
    | some [] => .error .indexError
    | some (bk :: _) =>
      match bk.markets with
      | none => .error .keyError
      | some [] => .error .indexError
      | some (mk :: _) =>
        match mk.outcomes with
        | none => .error .keyError
        | some outs =>
          match flattenOdds rest with
          | .error e => .error e
          | .ok tail => .ok (outs ++ tail)

/-- A game on which the unguarded subscripts of the flattening succeed: the
"bookmakers" key is present and non-empty, its first bookmaker has a present
non-empty "markets" key, and the first market has a present "outcomes" key. -/
def goodGame (g : Game) : Prop :=
  ∃ bk bks, g.bookmakers = some (bk :: bks) ∧
    ∃ mk mks, bk.markets = some (mk :: mks) ∧
      ∃ outs, mk.outcomes = some outs

/-- C10: the flattening succeeds exactly when every game in the response has a
non-empty bookmakers array whose first bookmaker has a non-empty markets
array (with an outcomes key on its first market); otherwise it raises
(KeyError / IndexError) instead of skipping the game or returning partial
records. -/
theorem flatten_unguarded (games : List Game) :
    (∃ l, flattenOdds games = .ok l) ↔ ∀ g ∈ games, goodGame g := by
  induction games with
  | nil => simp [flattenOdds]
  | cons g rest ih =>
    obtain ⟨obk⟩ := g
    constructor
    · rintro ⟨l, hl⟩ g2 hg2
      rcases obk with _ | ⟨_ | ⟨⟨omk⟩, bks⟩⟩
      · simp [flattenOdds] at hl
      · simp [flattenOdds] at hl
      · rcases omk with _ | ⟨_ | ⟨⟨oouts⟩, mks⟩⟩
        · simp [flattenOdds] at hl
        · simp [flattenOdds] at hl
        · rcases oouts with _ | outs
          · simp [flattenOdds] at hl
          · rcases hrest : flattenOdds rest with e | tail
            · simp [flattenOdds, hrest] at hl
            · rcases List.mem_cons.mp hg2 with h | h
              · subst h
                exact ⟨_, bks, rfl, _, mks, rfl, outs, rfl⟩
              · exact ih.mp ⟨tail, hrest⟩ g2 h
    · intro hall
      obtain ⟨bk, bks, hbk, mk, mks, hmk, outs, houts⟩ :=
        hall ⟨obk⟩ (List.mem_cons_self _ rest)
      obtain ⟨tail, htail⟩ :=
        ih.mpr (fun g2 h => hall g2 (List.mem_cons_of_mem _ h))
      refine ⟨outs ++ tail, ?_⟩
      change obk = some (bk :: bks) at hbk
      subst hbk
      simp [flattenOdds, hmk, houts, htail]

/-- Witness for C10: a single game with an empty bookmakers array makes the
flattening raise rather than succeed. -/
theorem flatten_unguarded_witness :
    ¬ ∃ l, flattenOdds [⟨some []⟩] = .ok l := by
  intro h
  obtain ⟨bk, bks, hbk, -⟩ :=
    (flatten_unguarded [⟨some []⟩]).mp h ⟨some []⟩ (by simp)
  simp at hbk

/-! ## The day-boundary polling loop (src/main.py lines 160-197) -/

/-- Error kinds that can be raised inside the loop body: HTTP failure in
`requests.get`, malformed JSON in `json.load`, the subscript errors of the
flattening, and an unclassified exception. -/
inductive ErrKind
  | httpError
  | jsonError
  | pyError (e : PyError)
  | other
deriving Repr, DecidableEq

/-- Observable side effects of one loop iteration: the "no spread data" warning
(line 177), the Google credential acquisition (line 188), the email send
(line 190), the best-bet selection failure log (line 183), and the blanket
error log of the outer `except` (line 196). -/
inductive Event
  | warnNoData
  | auth
  | emailSent (b : Outcome)
  | selectError
  | errorLogged (e : ErrKind)
deriving Repr, DecidableEq

/-- State of the main polling loop: the `new_day` flag, the `current_date`
variable (a US/Eastern day number; `0` stands for the still-unbound Python
variable before the first body run, which is never read because `new_day`
starts out `True`), and the position of the next `datetime.now` reading in
the date stream. -/
structure MainState where
  newDay : Bool
  marker : Nat
  pos : Nat
deriving Repr, DecidableEq

/-- Loop state on entry to the first iteration (src/main.py line 166). -/
def initState : MainState := ⟨true, 0, 0⟩

/-- One pass through the `try` block of the main loop (src/main.py lines
168-193).  `now` is the stream of `datetime.now(timezone("US/Eastern")).date()`
readings (each call consumes the next position) and `fetch d` is the result of
`get_spreads` for day `d` (`.error` when the fetch raises).  The mail steps
are recorded as events.  When the fetch raises, the partially updated state is
returned with the exception: `current_date` was already assigned (line 171)
and line 192 was not reached, so `new_day` keeps its value `true`. -/
def tryBody (now : Nat → Nat) (fetch : Nat → Except ErrKind (List Outcome))
    (s : MainState) : Except (ErrKind × MainState) (MainState × List Event) :=
  if s.newDay then
    let d := now s.pos
    match fetch d with
    | .error e => .error (e, ⟨true, d, s.pos + 1⟩)
    | .ok outcomes =>
      let evs :=
        if outcomes.isEmpty then [Event.warnNoData]
        else
          match bestBet outcomes with
          | some b => [Event.auth, Event.emailSent b]
          | none => [Event.selectError]
      let d2 := now (s.pos + 1)
      .ok (⟨decide (d < d2), d, s.pos + 2⟩, evs)
  else
    let d2 := now s.pos
    .ok (⟨decide (s.marker < d2), s.marker, s.pos + 1⟩, [])

/-- One iteration of `while True` with its blanket `except Exception`
(src/main.py lines 167-197): an exception from the body is caught and logged,
and the loop proceeds to the next iteration in either case. -/
def mainStep (now : Nat → Nat) (fetch : Nat → Except ErrKind (List Outcome))
    (s : MainState) : MainState × List Event :=
  match tryBody now fetch s with
  | .ok r => r
  | .error (e, s2) => (s2, [Event.errorLogged e])

/-- Loop state before iteration `n`. -/
def mainRun (now : Nat → Nat) (fetch : Nat → Except ErrKind (List Outcome)) :
    Nat → MainState
  | 0 => initState
  | n + 1 => (mainStep now fetch (mainRun now fetch n)).1

/-- Events produced by iteration `n`. -/
def iterEvents (now : Nat → Nat) (fetch : Nat → Except ErrKind (List Outcome))
    (n : Nat) : List Event :=
  (mainStep now fetch (mainRun now fetch n)).2

/-- The US/Eastern date for which the fetch-and-notify body ran at iteration
`n` (`none` when `new_day` was false and the body was skipped). -/
def execDate (now : Nat → Nat) (fetch : Nat → Except ErrKind (List Outcome))
    (n : Nat) : Option Nat :=
  let s := mainRun now fetch n
  if s.newDay then some (now s.pos) else none

/-- C4: when the fetch returns an empty record sequence, the try block returns
normally (no exception escapes the fetch-and-select step) with only the
"no data" warning: no credential acquisition, no send, and no error log. -/
theorem empty_fetch_skips_notification (now : Nat → Nat)
    (fetch : Nat → Except ErrKind (List Outcome)) (s : MainState)
    (hnd : s.newDay = true) (hf : fetch (now s.pos) = .ok []) :
    tryBody now fetch s =
      .ok (⟨decide (now s.pos < now (s.pos + 1)), now s.pos, s.pos + 2⟩,
        [Event.warnNoData]) ∧
    Event.auth ∉ (mainStep now fetch s).2 ∧
    (∀ b, Event.emailSent b ∉ (mainStep now fetch s).2) ∧
    (∀ e, Event.errorLogged e ∉ (mainStep now fetch s).2) := by
  have hbody : tryBody now fetch s =
      .ok (⟨decide (now s.pos < now (s.pos + 1)), now s.pos, s.pos + 2⟩,
        [Event.warnNoData]) := by
    simp [tryBody, hnd, hf]
  refine ⟨hbody, ?_, ?_, ?_⟩ <;> simp [mainStep, hbody]

/-- Witness for C4: a concrete empty fetch produces exactly the warning. -/
theorem empty_fetch_skips_notification_witness :
    tryBody (fun _ => 0) (fun _ => .ok []) initState =
      .ok (⟨decide ((0 : Nat) < 0), 0, 2⟩, [Event.warnNoData]) ∧
    Event.auth ∉ (mainStep (fun _ => 0) (fun _ => .ok []) initState).2 ∧
    (∀ b, Event.emailSent b ∉ (mainStep (fun _ => 0) (fun _ => .ok []) initState).2) ∧
    (∀ e, Event.errorLogged e ∉ (mainStep (fun _ => 0) (fun _ => .ok []) initState).2) :=
  empty_fetch_skips_notification (fun _ => 0) (fun _ => .ok []) initState rfl rfl

/-- C6: every exception raised inside one cycle of the loop body is caught by
the outer `except`, logged, and the loop goes on: the caught iteration yields
exactly the error-log event, leaves `new_day` set (so the body is retried on a
later cycle), and the run function always advances to the next iteration, so
no such error terminates the process. -/
theorem loop_survives_errors (now : Nat → Nat)
    (fetch : Nat → Except ErrKind (List Outcome)) (s : MainState)
    (e : ErrKind) (s2 : MainState)
    (h : tryBody now fetch s = .error (e, s2)) :
    mainStep now fetch s = (s2, [Event.errorLogged e]) ∧
    s2.newDay = true ∧
    ∀ n, mainRun now fetch (n + 1) = (mainStep now fetch (mainRun now fetch n)).1 := by
  refine ⟨by simp [mainStep, h], ?_, fun n => rfl⟩
  by_cases hnd : s.newDay
  · simp only [tryBody, hnd, if_true] at h
    rcases hf : fetch (now s.pos) with e2 | outcomes <;> rw [hf] at h
    · simp only [Except.error.injEq, Prod.mk.injEq] at h
      rw [← h.2]
    · simp at h
  · simp only [tryBody, hnd, if_false, Bool.false_eq_true] at h
    simp at h

/-- Witness for C6: a concrete HTTP failure is caught and logged and the loop
advances. -/
theorem loop_survives_errors_witness :
    mainStep (fun _ => 0) (fun _ => .error ErrKind.httpError) initState =
      (⟨true, 0, 1⟩, [Event.errorLogged ErrKind.httpError]) ∧
    (⟨true, 0, 1⟩ : MainState).newDay = true ∧
    ∀ n, mainRun (fun _ => 0) (fun _ => .error ErrKind.httpError) (n + 1) =
      (mainStep (fun _ => 0) (fun _ => .error ErrKind.httpError)
        (mainRun (fun _ => 0) (fun _ => .error ErrKind.httpError) n)).1 :=
  loop_survives_errors (fun _ => 0) (fun _ => .error ErrKind.httpError)
    initState ErrKind.httpError ⟨true, 0, 1⟩ rfl

/-! ## Scheduler invariants under normal operation (claim C2) -/

lemma mainStep_newDay (now : Nat → Nat) (fetch : Nat → Except ErrKind (List Outcome))
    (hfetch : ∀ d, ∃ l, fetch d = Except.ok l) (s : MainState) (h : s.newDay = true) :
    (mainStep now fetch s).1 =
      ⟨decide (now s.pos < now (s.pos + 1)), now s.pos, s.pos + 2⟩ := by
  obtain ⟨l, hl⟩ := hfetch (now s.pos)
  simp [mainStep, tryBody, h, hl]

lemma mainStep_skip (now : Nat → Nat) (fetch : Nat → Except ErrKind (List Outcome))
    (s : MainState) (h : s.newDay = false) :
    mainStep now fetch s =
      (⟨decide (s.marker < now s.pos), s.marker, s.pos + 1⟩, []) := by
  simp [mainStep, tryBody, h]

lemma mainRun_succ_newDay (now : Nat → Nat) (fetch : Nat → Except ErrKind (List Outcome))
    (hfetch : ∀ d, ∃ l, fetch d = Except.ok l) (n : Nat)
    (h : (mainRun now fetch n).newDay = true) :
    mainRun now fetch (n + 1) =
      ⟨decide (now (mainRun now fetch n).pos < now ((mainRun now fetch n).pos + 1)),
        now (mainRun now fetch n).pos, (mainRun now fetch n).pos + 2⟩ :=
  mainStep_newDay now fetch hfetch _ h

lemma mainRun_succ_skip (now : Nat → Nat) (fetch : Nat → Except ErrKind (List Outcome))
    (n : Nat) (h : (mainRun now fetch n).newDay = false) :
    mainRun now fetch (n + 1) =
      ⟨decide ((mainRun now fetch n).marker < now (mainRun now fetch n).pos),
        (mainRun now fetch n).marker, (mainRun now fetch n).pos + 1⟩ := by
  show (mainStep now fetch (mainRun now fetch n)).1 = _
  rw [mainStep_skip now fetch _ h]

lemma pos_bounds (now : Nat → Nat) (fetch : Nat → Except ErrKind (List Outcome))
    (hfetch : ∀ d, ∃ l, fetch d = Except.ok l) (n : Nat) :
    (mainRun now fetch n).pos + 1 ≤ (mainRun now fetch (n + 1)).pos ∧
      (mainRun now fetch (n + 1)).pos ≤ (mainRun now fetch n).pos + 2 := by
  by_cases h : (mainRun now fetch n).newDay
  · rw [mainRun_succ_newDay now fetch hfetch n h]
    dsimp only
    omega
  · rw [mainRun_succ_skip now fetch n (by simpa using h)]
    dsimp only
    omega

lemma le_pos (now : Nat → Nat) (fetch : Nat → Except ErrKind (List Outcome))
    (hfetch : ∀ d, ∃ l, fetch d = Except.ok l) : ∀ n, n ≤ (mainRun now fetch n).pos := by
  intro n
  induction n with
  | zero => exact Nat.zero_le _
  | succ m ih =>
    have := (pos_bounds now fetch hfetch m).1
    omega

lemma pos_mono (now : Nat → Nat) (fetch : Nat → Except ErrKind (List Outcome))
    (hfetch : ∀ d, ∃ l, fetch d = Except.ok l) :
    ∀ i j, i ≤ j → (mainRun now fetch i).pos ≤ (mainRun now fetch j).pos := by
  intro i j hij
  induction j with
  | zero =>
    obtain rfl : i = 0 := by omega
    exact le_refl _
  | succ m ih =>
    rcases Nat.lt_or_ge i (m + 1) with h | h
    · have h1 := ih (by omega)
      have h2 := (pos_bounds now fetch hfetch m).1
      omega
    · obtain rfl : i = m + 1 := by omega
      exact le_refl _

lemma marker_succ (now : Nat → Nat) (fetch : Nat → Except ErrKind (List Outcome))
    (hfetch : ∀ d, ∃ l, fetch d = Except.ok l) (n : Nat) :
    (mainRun now fetch (n + 1)).marker =
      if (mainRun now fetch n).newDay then now (mainRun now fetch n).pos
      else (mainRun now fetch n).marker := by
  by_cases h : (mainRun now fetch n).newDay
  · rw [mainRun_succ_newDay now fetch hfetch n h, if_pos h]
  · rw [mainRun_succ_skip now fetch n (by simpa using h), if_neg h]

lemma newDay_zero (now : Nat → Nat) (fetch : Nat → Except ErrKind (List Outcome)) :
    (mainRun now fetch 0).newDay = true := rfl

lemma marker_le_now_pos (now : Nat → Nat) (fetch : Nat → Except ErrKind (List Outcome))
    (hmono : Monotone now) (hfetch : ∀ d, ∃ l, fetch d = Except.ok l) :
    ∀ n, (mainRun now fetch n).marker ≤ now (mainRun now fetch n).pos := by
  intro n
  induction n with
  | zero => exact Nat.zero_le _
  | succ m ih =>
    have hpos := (pos_bounds now fetch hfetch m).1
    have hnow : now (mainRun now fetch m).pos ≤ now (mainRun now fetch (m + 1)).pos :=
      hmono (by omega)
    rw [marker_succ now fetch hfetch m]
    by_cases h : (mainRun now fetch m).newDay
    · rw [if_pos h]; exact hnow
    · rw [if_neg h]; exact le_trans ih hnow

lemma marker_step_mono (now : Nat → Nat) (fetch : Nat → Except ErrKind (List Outcome))
    (hmono : Monotone now) (hfetch : ∀ d, ∃ l, fetch d = Except.ok l) (n : Nat) :
    (mainRun now fetch n).marker ≤ (mainRun now fetch (n + 1)).marker := by
  rw [marker_succ now fetch hfetch n]
  by_cases h : (mainRun now fetch n).newDay
  · rw [if_pos h]; exact marker_le_now_pos now fetch hmono hfetch n
  · rw [if_neg h]

lemma marker_mono (now : Nat → Nat) (fetch : Nat → Except ErrKind (List Outcome))
    (hmono : Monotone now) (hfetch : ∀ d, ∃ l, fetch d = Except.ok l) :
    ∀ i j, i ≤ j → (mainRun now fetch i).marker ≤ (mainRun now fetch j).marker := by
  intro i j hij
  induction j with
  | zero =>
    obtain rfl : i = 0 := by omega
    exact le_refl _
  | succ m ih =>
    rcases Nat.lt_or_ge i (m + 1) with h | h
    · exact le_trans (ih (by omega)) (marker_step_mono now fetch hmono hfetch m)
    · obtain rfl : i = m + 1 := by omega
      exact le_refl _

lemma newDay_succ (now : Nat → Nat) (fetch : Nat → Except ErrKind (List Outcome))
    (hfetch : ∀ d, ∃ l, fetch d = Except.ok l) (n : Nat) :
    (mainRun now fetch (n + 1)).newDay =
      decide ((mainRun now fetch (n + 1)).marker <
        now ((mainRun now fetch (n + 1)).pos - 1)) := by
  by_cases h : (mainRun now fetch n).newDay
  · rw [mainRun_succ_newDay now fetch hfetch n h]
    simp
  · rw [mainRun_succ_skip now fetch n (by simpa using h)]
    simp

lemma marker_eq_read (now : Nat → Nat) (fetch : Nat → Except ErrKind (List Outcome))
    (hfetch : ∀ d, ∃ l, fetch d = Except.ok l) :
    ∀ n, ∃ t, t ≤ (mainRun now fetch n).pos ∧
      (mainRun now fetch (n + 1)).marker = now t := by
  intro n
  induction n with
  | zero =>
    refine ⟨(mainRun now fetch 0).pos, le_refl _, ?_⟩
    rw [marker_succ now fetch hfetch 0, if_pos (newDay_zero now fetch)]
  | succ m ih =>
    by_cases h : (mainRun now fetch (m + 1)).newDay
    · exact ⟨(mainRun now fetch (m + 1)).pos, le_refl _,
        by rw [marker_succ now fetch hfetch (m + 1), if_pos h]⟩
    · obtain ⟨t, ht, hmk⟩ := ih
      refine ⟨t, ?_, ?_⟩
      · have := (pos_bounds now fetch hfetch m).1
        omega
      · rw [marker_succ now fetch hfetch (m + 1), if_neg h]
        exact hmk

lemma execDate_eq_some (now : Nat → Nat) (fetch : Nat → Except ErrKind (List Outcome))
    {n : Nat} {d : Nat} (h : execDate now fetch n = some d) :
    (mainRun now fetch n).newDay = true ∧ d = now (mainRun now fetch n).pos := by
  unfold execDate at h
  by_cases hnd : (mainRun now fetch n).newDay
  · simp only [hnd, if_true, Option.some.injEq] at h
    exact ⟨hnd, h.symm⟩
  · simp [hnd] at h

lemma execDate_of_newDay (now : Nat → Nat) (fetch : Nat → Except ErrKind (List Outcome))
    {n : Nat} (h : (mainRun now fetch n).newDay = true) :
    execDate now fetch n = some (now (mainRun now fetch n).pos) := by
  simp [execDate, h]

lemma exec_date_lt (now : Nat → Nat) (fetch : Nat → Except ErrKind (List Outcome))
    (hmono : Monotone now) (hfetch : ∀ d, ∃ l, fetch d = Except.ok l)
    {i j d d2 : Nat} (hij : i < j)
    (hi : execDate now fetch i = some d) (hj : execDate now fetch j = some d2) :
    d < d2 := by
  obtain ⟨hndi, hdi⟩ := execDate_eq_some now fetch hi
  obtain ⟨hndj, hdj⟩ := execDate_eq_some now fetch hj
  obtain ⟨m, rfl⟩ : ∃ m, j = m + 1 := ⟨j - 1, by omega⟩
  have hm1 : (mainRun now fetch (i + 1)).marker = d := by
    rw [marker_succ now fetch hfetch i, if_pos hndi, ← hdi]
  have hle : d ≤ (mainRun now fetch (m + 1)).marker := by
    rw [← hm1]
    exact marker_mono now fetch hmono hfetch (i + 1) (m + 1) (by omega)
  have hnds := newDay_succ now fetch hfetch m
  rw [hndj] at hnds
  have hlt : (mainRun now fetch (m + 1)).marker <
      now ((mainRun now fetch (m + 1)).pos - 1) := of_decide_eq_true hnds.symm
  have hmn : now ((mainRun now fetch (m + 1)).pos - 1) ≤
      now ((mainRun now fetch (m + 1)).pos) := hmono (Nat.sub_le _ _)
  rw [hdj]
  omega

lemma sent_implies_exec (now : Nat → Nat) (fetch : Nat → Except ErrKind (List Outcome))
    (n : Nat) (b : Outcome) (h : Event.emailSent b ∈ iterEvents now fetch n) :
    ∃ d, execDate now fetch n = some d := by
  by_cases hnd : (mainRun now fetch n).newDay
  · exact ⟨now (mainRun now fetch n).pos, execDate_of_newDay now fetch hnd⟩
  · have hskip := mainStep_skip now fetch (mainRun now fetch n) (by simpa using hnd)
    unfold iterEvents at h
    rw [hskip] at h
    simp at h

lemma exists_exec (now : Nat → Nat) (fetch : Nat → Except ErrKind (List Outcome))
    (hfetch : ∀ d, ∃ l, fetch d = Except.ok l)
    (p q D : Nat)
    (hpre : ∀ t, t < p → now t < D)
    (hblock : ∀ t, t ≤ q → p ≤ t → now t = D)
    (hq : p + 2 ≤ q) :
    ∃ n, execDate now fetch n = some D := by
  have hex : ∃ n, p + 1 ≤ (mainRun now fetch (n + 1)).pos := by
    refine ⟨p + 1, ?_⟩
    have h1 := le_pos now fetch hfetch (p + 1 + 1)
    omega
  obtain ⟨n0, hspec, hmin⟩ : ∃ n0, (p + 1 ≤ (mainRun now fetch (n0 + 1)).pos) ∧
      ∀ k, k < n0 → ¬ (p + 1 ≤ (mainRun now fetch (k + 1)).pos) :=
    ⟨Nat.find hex, Nat.find_spec hex, fun k hk => Nat.find_min hex hk⟩
  have hposn0 : (mainRun now fetch n0).pos ≤ p := by
    rcases Nat.eq_zero_or_pos n0 with h0 | h0
    · subst h0
      have h00 : (mainRun now fetch 0).pos = 0 := rfl
      omega
    · obtain ⟨m, rfl⟩ : ∃ m, n0 = m + 1 := ⟨n0 - 1, by omega⟩
      have := hmin m (by omega)
      omega
  by_cases hnd : (mainRun now fetch n0).newDay
  · rcases Nat.lt_or_ge (mainRun now fetch n0).pos p with hlt | hge
    · have hrun := mainRun_succ_newDay now fetch hfetch n0 hnd
      have hpos1 : (mainRun now fetch (n0 + 1)).pos = (mainRun now fetch n0).pos + 2 := by
        rw [hrun]
      have hmk : (mainRun now fetch (n0 + 1)).marker = now (mainRun now fetch n0).pos := by
        rw [marker_succ now fetch hfetch n0, if_pos hnd]
      have hmkD : (mainRun now fetch (n0 + 1)).marker < D := by
        rw [hmk]
        exact hpre _ hlt
      have hnd1 : (mainRun now fetch (n0 + 1)).newDay = true := by
        rw [newDay_succ now fetch hfetch n0]
        apply decide_eq_true
        have hp1 : (mainRun now fetch (n0 + 1)).pos - 1 = p := by omega
        rw [hp1, hblock p (by omega) (le_refl p)]
        exact hmkD
      have hdate : now (mainRun now fetch (n0 + 1)).pos = D := by
        apply hblock <;> omega
      exact ⟨n0 + 1, by rw [execDate_of_newDay now fetch hnd1, hdate]⟩
    · have hpeq : (mainRun now fetch n0).pos = p := by omega
      refine ⟨n0, ?_⟩
      rw [execDate_of_newDay now fetch hnd, hpeq, hblock p (by omega) (le_refl p)]
  · have hnd2 : (mainRun now fetch n0).newDay = false := by simpa using hnd
    rcases Nat.eq_zero_or_pos n0 with h0 | h0
    · subst h0
      rw [newDay_zero now fetch] at hnd2
      simp at hnd2
    · obtain ⟨m, rfl⟩ : ∃ m, n0 = m + 1 := ⟨n0 - 1, by omega⟩
      have hrun := mainRun_succ_skip now fetch (m + 1) hnd2
      have hpos1 : (mainRun now fetch (m + 1 + 1)).pos =
          (mainRun now fetch (m + 1)).pos + 1 := by
        rw [hrun]
      have hpeq : (mainRun now fetch (m + 1)).pos = p := by omega
      obtain ⟨t, ht, hmk⟩ := marker_eq_read now fetch hfetch m
      have htp : t < p := by
        have := (pos_bounds now fetch hfetch m).1
        omega
      have hmkD : (mainRun now fetch (m + 1)).marker < D := by
        rw [hmk]
        exact hpre t htp
      have hmk1 : (mainRun now fetch (m + 1 + 1)).marker =
          (mainRun now fetch (m + 1)).marker := by
        rw [marker_succ now fetch hfetch (m + 1), if_neg hnd]
      have hnd1 : (mainRun now fetch (m + 1 + 1)).newDay = true := by
        rw [newDay_succ now fetch hfetch (m + 1)]
        apply decide_eq_true
        rw [hmk1]
        have hp1 : (mainRun now fetch (m + 1 + 1)).pos - 1 = p := by omega
        rw [hp1, hblock p (by omega) (le_refl p)]
        exact hmkD
      have hdate : now (mainRun now fetch (m + 1 + 1)).pos = D := by
        apply hblock <;> omega
      exact ⟨m + 1 + 1, by rw [execDate_of_newDay now fetch hnd1, hdate]⟩

/-- C2: under continuous normal operation (the US/Eastern date stream is
monotone, each date lasts at least three consecutive readings, and no cycle
raises), the fetch-and-notify body executes exactly once for each calendar
date `D`, never re-executing within the date; consequently sends at distinct
iterations are for strictly increasing dates, so at most one notification
goes out per calendar day. -/
theorem body_once_per_day (now : Nat → Nat) (fetch : Nat → Except ErrKind (List Outcome))
    (hmono : Monotone now) (hfetch : ∀ d, ∃ l, fetch d = Except.ok l)
    (p q D : Nat)
    (hpre : ∀ t, t < p → now t < D)
    (hblock : ∀ t, t ≤ q → p ≤ t → now t = D)
    (hq : p + 2 ≤ q) :
    (∃! n, execDate now fetch n = some D) ∧
    ∀ i j b b2, i < j →
      Event.emailSent b ∈ iterEvents now fetch i →
      Event.emailSent b2 ∈ iterEvents now fetch j →
      ∃ di dj, execDate now fetch i = some di ∧ execDate now fetch j = some dj ∧
        di < dj := by
  constructor
  · obtain ⟨n, hn⟩ := exists_exec now fetch hfetch p q D hpre hblock hq
    refine ⟨n, hn, ?_⟩
    intro n2 hn2
    rcases Nat.lt_trichotomy n2 n with h | h | h
    · exact absurd (exec_date_lt now fetch hmono hfetch h hn2 hn) (lt_irrefl D)
    · exact h
    · exact absurd (exec_date_lt now fetch hmono hfetch h hn hn2) (lt_irrefl D)
  · intro i j b b2 hij hbi hbj
    obtain ⟨di, hdi⟩ := sent_implies_exec now fetch i b hbi
    obtain ⟨dj, hdj⟩ := sent_implies_exec now fetch j b2 hbj
    exact ⟨di, dj, hdi, hdj, exec_date_lt now fetch hmono hfetch hij hdi hdj⟩

/-- Witness for C2: for the concrete Eastern-date stream `t / 5` (each date
lasts five readings) and an always-empty fetch, date `1` (readings 5 to 9)
gets exactly one body execution. -/
theorem body_once_per_day_witness :
    (∃! n, execDate (fun t => t / 5) (fun _ => Except.ok []) n = some 1) ∧
    ∀ i j b b2, i < j →
      Event.emailSent b ∈ iterEvents (fun t => t / 5) (fun _ => Except.ok []) i →
      Event.emailSent b2 ∈ iterEvents (fun t => t / 5) (fun _ => Except.ok []) j →
      ∃ di dj, execDate (fun t => t / 5) (fun _ => Except.ok []) i = some di ∧
        execDate (fun t => t / 5) (fun _ => Except.ok []) j = some dj ∧
        di < dj :=
  body_once_per_day (fun t => t / 5) (fun _ => Except.ok [])
    (fun _ _ h => Nat.div_le_div_right h) (fun _ => ⟨[], rfl⟩)
    5 9 1 (by decide) (by decide) (by decide)

/-! ## Day window of get_spreads (src/main.py lines 134-146) -/

/-- Naive wall-clock datetime built by
`datetime.combine(current_date, time(h, m, s))` (src/main.py lines 135-136),
as seconds on the local calendar: `day` is the target date as a day number.
The value carries no time zone. -/
def naiveWall (day : Int) (h m s : Int) : Int :=
  day * 86400 + h * 3600 + m * 60 + s

/-- Model of `.astimezone(timezone("UTC"))` applied to a naive datetime:
Python interprets a naive datetime as wall time of the *system local* zone,
so the resulting UTC instant is the wall-clock value minus the system zone's
UTC offset (`sysOffset`, seconds east of UTC). -/
def naiveToUTC (sysOffset : Int) (wall : Int) : Int :=
  wall - sysOffset

/-- The `commenceTimeFrom` window bound of `get_spreads` (src/main.py line
135): local 10:00:00 on the target date converted to a UTC instant, which is
then strftime-formatted as `%Y-%m-%dT%H:%M:%SZ` (line 134). -/
def windowStartUTC (sysOffset : Int) (day : Int) : Int :=
  naiveToUTC sysOffset (naiveWall day 10 0 0)

/-- The `commenceTimeTo` window bound (src/main.py line 136): local 23:59:59
on the target date converted to a UTC instant. -/
def windowEndUTC (sysOffset : Int) (day : Int) : Int :=
  naiveToUTC sysOffset (naiveWall day 23 59 59)

/-- Modelled from the spec for comparison (claim C5 refinement): the same
window computed in the configured US Eastern zone, `eastOffset` being the
Eastern UTC offset in seconds for the target date (-14400 under daylight
saving, -18000 otherwise). -/
def windowStartEasternSpec (eastOffset : Int) (day : Int) : Int :=
  naiveToUTC eastOffset (naiveWall day 10 0 0)

/-- Modelled from the spec (claim C5 refinement): Eastern-based window end. -/
def windowEndEasternSpec (eastOffset : Int) (day : Int) : Int :=
  naiveToUTC eastOffset (naiveWall day 23 59 59)

/-- Counterexample to C5: on a system whose local zone is UTC (offset 0), the
request window start for day 0 is instant 36000 (10:00:00Z), while the
US-Eastern-based window start would be 50400 (EDT) or 54000 (EST):
`get_spreads` converts from the system zone, not from US Eastern. -/
theorem window_not_eastern :
    windowStartUTC 0 0 = 36000 ∧
    windowStartEasternSpec (-14400) 0 = 50400 ∧
    windowStartEasternSpec (-18000) 0 = 54000 ∧
    windowStartUTC 0 0 ≠ windowStartEasternSpec (-14400) 0 ∧
    windowStartUTC 0 0 ≠ windowStartEasternSpec (-18000) 0 ∧
    windowEndUTC 0 0 ≠ windowEndEasternSpec (-14400) 0 := by
  refine ⟨rfl, rfl, rfl, ?_, ?_, ?_⟩ <;> decide

/-- C5 amended: the request window is 10:00:00 through 23:59:59 of the target
date interpreted in the process's *system local* time zone and converted to
UTC by subtracting the system offset; it coincides with the US-Eastern-based
window exactly when the system offset equals the Eastern offset. -/
theorem window_system_local (sysOffset eastOffset day : Int) :
    windowStartUTC sysOffset day = day * 86400 + 36000 - sysOffset ∧
    windowEndUTC sysOffset day = day * 86400 + 86399 - sysOffset ∧
    (windowStartUTC sysOffset day = windowStartEasternSpec eastOffset day ↔
      sysOffset = eastOffset) := by
  refine ⟨?_, ?_, ?_⟩ <;>
    simp only [windowStartUTC, windowEndUTC, windowStartEasternSpec,
      naiveToUTC, naiveWall] <;>
    omega

/-- Witness for C5 amended, at system offset 0 (UTC) versus Eastern DST
offset -14400 on day 0. -/
theorem window_system_local_witness :
    windowStartUTC 0 0 = 0 * 86400 + 36000 - 0 ∧
    windowEndUTC 0 0 = 0 * 86400 + 86399 - 0 ∧
    (windowStartUTC 0 0 = windowStartEasternSpec (-14400) 0 ↔
      (0 : Int) = -14400) :=
  window_system_local 0 (-14400) 0

/-! ## Credential acquisition (src/main.py lines 32-65) -/

/-- Observable state of the stored token file when `authenticate_with_google`
reads it (src/main.py lines 44-46): absent; present but unreadable or
unparseable (`Credentials.from_authorized_user_file` raises); or parsed into
a credential with the given validity, expiry and refresh-token flags. -/
inductive TokenState
  | absent
  | unparseable
  | parsed (valid : Bool) (expired : Bool) (hasRefresh : Bool)
deriving Repr, DecidableEq

/-- Actions `authenticate_with_google` performs, in order. -/
inductive AuthAction
  | loadedFromFile
  | refreshed
  | browserFlow
  | persisted
deriving Repr, DecidableEq

/-- Exception escaping `authenticate_with_google`: nothing in the function
catches the parse failure that
`Credentials.from_authorized_user_file` raises on a corrupt token file. -/
inductive AuthError
  | parseFailure
deriving Repr, DecidableEq

/-- Model of `authenticate_with_google` (src/main.py lines 32-65): the file
is loaded when present (line 45); a valid credential is returned as is; an
expired credential with a refresh token is refreshed (line 50) and persisted;
otherwise the interactive browser flow runs (lines 53-57) and the fresh
credential is persisted (lines 61-63) before returning. -/
def authenticate_with_google : TokenState → Except AuthError (List AuthAction)
  | .absent => .ok [.browserFlow, .persisted]
  | .unparseable => .error .parseFailure
  | .parsed valid expired hasRefresh =>
    if valid then .ok [.loadedFromFile]
    else if expired && hasRefresh then .ok [.loadedFromFile, .refreshed, .persisted]
    else .ok [.loadedFromFile, .browserFlow, .persisted]

/-- Counterexample to C7: a present but unparseable token file does not lead
to the interactive browser flow with persistence; the parse exception escapes
the credential-acquisition step instead. -/
theorem auth_unparseable_raises :
    authenticate_with_google TokenState.unparseable =
      .error AuthError.parseFailure ∧
    ¬ ∃ acts, authenticate_with_google TokenState.unparseable = .ok acts ∧
        AuthAction.browserFlow ∈ acts ∧ AuthAction.persisted ∈ acts := by
  refine ⟨rfl, ?_⟩
  rintro ⟨acts, h, -⟩
  simp [authenticate_with_google] at h

/-- C7 amended: when the stored credential file is absent, or parses to an
invalid credential that cannot be silently refreshed, the interactive browser
flow runs and the fresh credential is persisted afterwards, before the
function returns; a present but unreadable/unparseable file instead raises
out of the credential-acquisition step without running the flow. -/
theorem auth_browser_flow_cases :
    authenticate_with_google .absent =
      .ok [AuthAction.browserFlow, AuthAction.persisted] ∧
    (∀ expired hasRefresh, expired = false ∨ hasRefresh = false →
      authenticate_with_google (.parsed false expired hasRefresh) =
        .ok [AuthAction.loadedFromFile, AuthAction.browserFlow,
          AuthAction.persisted]) ∧
    authenticate_with_google .unparseable = .error AuthError.parseFailure := by
  refine ⟨rfl, ?_, rfl⟩
  rintro e r (h | h) <;> subst h <;> simp [authenticate_with_google]

/-- Witness for C7 amended: the absent-file case and the
expired-without-refresh-token case both run the browser flow then persist. -/
theorem auth_browser_flow_cases_witness :
    authenticate_with_google .absent =
      .ok [AuthAction.browserFlow, AuthAction.persisted] ∧
    authenticate_with_google (.parsed false true false) =
      .ok [AuthAction.loadedFromFile, AuthAction.browserFlow,
        AuthAction.persisted] :=
  ⟨auth_browser_flow_cases.1,
    auth_browser_flow_cases.2.1 true false (Or.inr rfl)⟩

/-! ## Mail sending (src/main.py lines 95-114) -/

/-- Result of the Gmail API call
`service.users().messages().send(userId="me", body=message).execute()`
(src/main.py line 111): success, an API-level `HttpError`, or an exception of
any other type (connection, DNS and timeout errors of the underlying
transport are not `HttpError`). -/
inductive SendCallResult
  | success
  | httpError (msg : List Char)
  | otherError (msg : List Char)
deriving Repr, DecidableEq

/-- Log lines `send_email` emits. -/
inductive SendLog
  | infoSent
  | errorLogged (msg : List Char)
deriving Repr, DecidableEq

/-- Model of `send_email` (src/main.py lines 95-114): the `try` block catches
only `HttpError` (line 113) and logs it; an exception of any other type
raised by the send call propagates to the caller. -/
def send_email (r : SendCallResult) : Except (List Char) (List SendLog) :=
  match r with
  | .success => .ok [.infoSent]
  | .httpError m => .ok [.errorLogged m]
  | .otherError m => .error m

/-- Counterexample to C8: a transport failure that is not an `HttpError`
(here a refused connection) escapes `send_email`: the exception propagates
to the caller instead of being logged and swallowed. -/
theorem send_email_other_error_escapes :
    send_email (SendCallResult.otherError ("connection refused").data) =
      .error ("connection refused").data := rfl

/-- C8 amended: every `HttpError` raised by the send call is caught, logged
and swallowed, so `send_email` returns normally and that day's notification
is dropped with no same-day retry; exceptions of any other type propagate to
the caller (where the main loop's blanket `except` catches them). -/
theorem send_email_swallows_http_errors :
    (∀ m, send_email (SendCallResult.httpError m) =
      .ok [SendLog.errorLogged m]) ∧
    send_email SendCallResult.success = .ok [SendLog.infoSent] ∧
    (∀ m, send_email (SendCallResult.otherError m) = .error m) :=
  ⟨fun _ => rfl, rfl, fun _ => rfl⟩

/-! ## Message construction (src/main.py lines 68-92): base64url transport -/

/-- Alphabet of RFC 4648 URL-safe base64, as used by
`base64.urlsafe_b64encode` (src/main.py line 91). -/
def b64Alphabet : List Char :=
  ("ABCDEFGHIJKLMNOPQRSTUVWXYZabcdefghijklmnopqrstuvwxyz0123456789-_").data

/-- Character encoding one 6-bit group. -/
def sextetChar (n : Nat) : Char :=
  b64Alphabet.getD n 'A'

/-- Decode one base64url character; `none` for a character outside the
alphabet (such as the padding sign). -/
def charSextet? (c : Char) : Option Nat :=
  b64Alphabet.findIdx? (fun x => x = c)

/-- Model of `base64.urlsafe_b64encode` on a byte list (values below 256):
three bytes become four alphabet characters, a final group of one or two
bytes is completed with padding. -/
def base64urlEncode : List Nat → List Char
  | [] => []
  | [b1] =>
    [sextetChar (b1 / 4), sextetChar (b1 % 4 * 16), '=', '=']
  | [b1, b2] =>
    [sextetChar (b1 / 4), sextetChar (b1 % 4 * 16 + b2 / 16),
      sextetChar (b2 % 16 * 4), '=']
  | b1 :: b2 :: b3 :: rest =>
    sextetChar (b1 / 4) :: sextetChar (b1 % 4 * 16 + b2 / 16) ::
      sextetChar (b2 % 16 * 4 + b3 / 64) :: sextetChar (b3 % 64) ::
      base64urlEncode rest

/-- Model of `base64.urlsafe_b64decode` on padded input: `none` when the text
is not well-padded base64url. -/
def base64urlDecode : List Char → Option (List Nat)
  | [] => some []
  | c1 :: c2 :: c3 :: c4 :: rest =>
    match charSextet? c1, charSextet? c2 with
    | some s1, some s2 =>
      if c3 = '=' then
        if c4 = '=' ∧ rest = [] ∧ s2 % 16 = 0 then some [s1 * 4 + s2 / 16]
        else none
      else
        match charSextet? c3 with
        | some s3 =>
          if c4 = '=' then
            if rest = [] ∧ s3 % 4 = 0 then
              some [s1 * 4 + s2 / 16, s2 % 16 * 16 + s3 / 4]
            else none
          else
            match charSextet? c4, base64urlDecode rest with
            | some s4, some tail =>
              some ((s1 * 4 + s2 / 16) :: (s2 % 16 * 16 + s3 / 4) ::
                (s3 % 4 * 64 + s4) :: tail)
            | _, _ => none
        | none => none
    | _, _ => none
  | _ => none

lemma charSextet_round : ∀ n, n < 64 → charSextet? (sextetChar n) = some n := by
  decide

lemma sextetChar_ne_pad : ∀ n, sextetChar n ≠ '=' := by
  intro n
  unfold sextetChar
  rcases Nat.lt_or_ge n 64 with h | h
  · revert h
    revert n
    decide
  · rw [List.getD_eq_default]
    · decide
    · simpa [b64Alphabet] using h

lemma decode_pad2 (b1 : Nat) (h1 : b1 < 256) :
    base64urlDecode [sextetChar (b1 / 4), sextetChar (b1 % 4 * 16), '=', '='] =
      some [b1] := by
  simp only [base64urlDecode]
  rw [charSextet_round (b1 / 4) (by omega),
    charSextet_round (b1 % 4 * 16) (by omega)]
  have hmod : b1 % 4 * 16 % 16 = 0 := by omega
  simp [hmod]
  omega

lemma decode_pad1 (b1 b2 : Nat) (h1 : b1 < 256) (h2 : b2 < 256) :
    base64urlDecode [sextetChar (b1 / 4), sextetChar (b1 % 4 * 16 + b2 / 16),
      sextetChar (b2 % 16 * 4), '='] = some [b1, b2] := by
  have e1 := charSextet_round (b1 / 4) (by omega)
  have e2 := charSextet_round (b1 % 4 * 16 + b2 / 16) (by omega)
  have e3 := charSextet_round (b2 % 16 * 4) (by omega)
  have hmod : b2 % 16 * 4 % 4 = 0 := by omega
  simp [base64urlDecode, e1, e2, e3, sextetChar_ne_pad, hmod]
  constructor
  · omega
  · omega

lemma decode_full (b1 b2 b3 : Nat) (h1 : b1 < 256) (h2 : b2 < 256) (h3 : b3 < 256)
    (rest : List Char) (tail : List Nat) (hrest : base64urlDecode rest = some tail) :
    base64urlDecode (sextetChar (b1 / 4) :: sextetChar (b1 % 4 * 16 + b2 / 16) ::
      sextetChar (b2 % 16 * 4 + b3 / 64) :: sextetChar (b3 % 64) :: rest) =
      some (b1 :: b2 :: b3 :: tail) := by
  have e1 := charSextet_round (b1 / 4) (by omega)
  have e2 := charSextet_round (b1 % 4 * 16 + b2 / 16) (by omega)
  have e3 := charSextet_round (b2 % 16 * 4 + b3 / 64) (by omega)
  have e4 := charSextet_round (b3 % 64) (by omega)
  simp [base64urlDecode, e1, e2, e3, e4, sextetChar_ne_pad, hrest]
  refine ⟨by omega, by omega, by omega⟩

/-- Round trip of the transport encoding: decoding an encoded byte list
recovers it exactly. -/
lemma base64url_round_trip (bs : List Nat) (hb : ∀ b ∈ bs, b < 256) :
    base64urlDecode (base64urlEncode bs) = some bs := by
  induction bs using base64urlEncode.induct with
  | case1 => rfl
  | case2 b1 =>
    rw [base64urlEncode]
    exact decode_pad2 b1 (hb b1 (by simp))
  | case3 b1 b2 =>
    rw [base64urlEncode]
    exact decode_pad1 b1 b2 (hb b1 (by simp)) (hb b2 (by simp))
  | case4 b1 b2 b3 rest ih =>
    rw [base64urlEncode]
    exact decode_full b1 b2 b3 (hb b1 (by simp)) (hb b2 (by simp)) (hb b3 (by simp))
      _ _ (ih (fun b h => hb b (by simp [h])))

/-- Header and body lines of the MIME message built by `create_email_message`
(src/main.py lines 86-90): a `MIMEMultipart` container whose own headers are
the Content-Type (with the boundary the email library generates at random —
a parameter here), MIME-Version, and the "to" and "from" headers set on
lines 87-88; then the attached `MIMEText` part carrying `body`, framed by the
boundary lines, as `as_bytes` serializes it with the compat32 policy. -/
def messageLines (boundary sender recipient body : List Char) : List (List Char) :=
  [("Content-Type: multipart/mixed; boundary=\"").data ++
      (boundary ++ ("\"").data),
    ("MIME-Version: 1.0").data,
    ("to: ").data ++ recipient,
    ("from: ").data ++ sender,
    [],
    ("--").data ++ boundary,
    ("Content-Type: text/plain; charset=\"us-ascii\"").data,
    ("MIME-Version: 1.0").data,
    ("Content-Transfer-Encoding: 7bit").data,
    [],
    body,
    ("--").data ++ (boundary ++ ("--").data)]

/-- Serialized message text: the lines joined with the `\n` separator the
compat32 `Generator` uses in `message.as_bytes()` (src/main.py line 91). -/
def renderMessage (boundary sender recipient body : List Char) : List Char :=
  List.intercalate ['\n'] (messageLines boundary sender recipient body)

/-- Bytes of a text: codepoints of its characters (the serialized message is
byte-clean whenever every character is below 256). -/
def strBytes (s : List Char) : List Nat :=
  s.map Char.toNat

/-- The `{"raw": ...}` dictionary `create_email_message` returns
(src/main.py line 92). -/
structure GmailPayload where
  raw : List Char
deriving Repr, DecidableEq

/-- Model of `create_email_message` (src/main.py lines 68-92): build the MIME
message, serialize it, base64url-encode the bytes (line 91) and wrap the text
in the `raw` field. -/
def create_email_message (boundary sender recipient body : List Char) : GmailPayload :=
  ⟨base64urlEncode (strBytes (renderMessage boundary sender recipient body))⟩

/-- Value of header `name` in a line list: the first line starting with
`name ++ ": "`, with that prefix removed. -/
def headerValue (ls : List (List Char)) (name : List Char) : Option (List Char) :=
  (ls.find? (fun l => (name ++ (": ").data).isPrefixOf l)).map
    (fun l => l.drop (name.length + 2))

lemma isPrefixOf_append_false (p l t : List Char)
    (h1 : p.isPrefixOf l = false) (h2 : l.isPrefixOf p = false) :
    p.isPrefixOf (l ++ t) = false := by
  by_contra h
  rw [Bool.not_eq_false] at h
  have hp : p <+: l ++ t := List.isPrefixOf_iff_prefix.mp h
  have hl : l <+: l ++ t := List.prefix_append l t
  rcases List.prefix_or_prefix_of_prefix hp hl with hc | hc
  · exact absurd (List.isPrefixOf_iff_prefix.mpr hc) (by simp [h1])
  · exact absurd (List.isPrefixOf_iff_prefix.mpr hc) (by simp [h2])

lemma headerValue_to (boundary sender recipient body : List Char) :
    headerValue (messageLines boundary sender recipient body) (("to").data) = some recipient := by
  unfold headerValue messageLines
  have hname : ("to").data ++ (": ").data = ("to: ").data := rfl
  simp only [hname]
  rw [List.find?_cons_of_neg _ (by
    rw [isPrefixOf_append_false _ _ _ (by decide) (by decide)]
    simp)]
  rw [List.find?_cons_of_neg _ (by decide)]
  rw [List.find?_cons_of_pos _ (by
    exact List.isPrefixOf_iff_prefix.mpr (List.prefix_append _ _))]
  simp

lemma headerValue_from (boundary sender recipient body : List Char) :
    headerValue (messageLines boundary sender recipient body) (("from").data) =
      some sender := by
  unfold headerValue messageLines
  have hname : ("from").data ++ (": ").data = ("from: ").data := rfl
  simp only [hname]
  rw [List.find?_cons_of_neg _ (by
    rw [isPrefixOf_append_false _ _ _ (by decide) (by decide)]
    simp)]
  rw [List.find?_cons_of_neg _ (by decide)]
  rw [List.find?_cons_of_neg _ (by
    rw [isPrefixOf_append_false _ _ _ (by decide) (by decide)]
    simp)]
  rw [List.find?_cons_of_pos _ (by
    exact List.isPrefixOf_iff_prefix.mpr (List.prefix_append _ _))]
  simp

/-- C9: the `raw` field built by `create_email_message`, base64url-decoded,
is exactly the serialized MIME message (round trip), whose "to" header equals
the supplied recipient, whose "from" header equals the supplied sender, and
which contains the supplied body text as its payload line, with the blank
separator line the MIME format requires. -/
theorem create_email_round_trip (boundary sender recipient body : List Char)
    (hbytes : ∀ c ∈ renderMessage boundary sender recipient body, c.toNat < 256) :
    base64urlDecode (create_email_message boundary sender recipient body).raw =
      some (strBytes (renderMessage boundary sender recipient body)) ∧
    headerValue (messageLines boundary sender recipient body) (("to").data) = some recipient ∧
    headerValue (messageLines boundary sender recipient body) (("from").data) =
      some sender ∧
    body ∈ messageLines boundary sender recipient body ∧
    [] ∈ messageLines boundary sender recipient body := by
  refine ⟨?_, headerValue_to boundary sender recipient body,
    headerValue_from boundary sender recipient body, ?_, ?_⟩
  · refine base64url_round_trip _ ?_
    intro b hb
    obtain ⟨c, hc, rfl⟩ := List.mem_map.mp hb
    exact hbytes c hc
  · simp [messageLines]
  · simp [messageLines]

/-- Witness for C9: a concrete message round-trips and yields back its
recipient, sender and body. -/
theorem create_email_round_trip_witness :
    base64urlDecode (create_email_message ("b7").data ("me@example.com").data
        ("you@example.com").data ("hello world").data).raw =
      some (strBytes (renderMessage ("b7").data ("me@example.com").data
        ("you@example.com").data ("hello world").data)) ∧
    headerValue (messageLines ("b7").data ("me@example.com").data
        ("you@example.com").data ("hello world").data) (("to").data) =
      some ("you@example.com").data ∧
    headerValue (messageLines ("b7").data ("me@example.com").data
        ("you@example.com").data ("hello world").data) (("from").data) =
      some ("me@example.com").data ∧
    ("hello world").data ∈ messageLines ("b7").data ("me@example.com").data
      ("you@example.com").data ("hello world").data ∧
    [] ∈ messageLines ("b7").data ("me@example.com").data
      ("you@example.com").data ("hello world").data :=
  create_email_round_trip ("b7").data ("me@example.com").data
    ("you@example.com").data ("hello world").data (by decide)
